import Mathlib

/-!
Verification of the Speech2Clip recording/recognition pipeline.

This file gives a shallow embedding, in Lean 4, of the parts of the
Speech2Clip sources that the specification talks about:

* `src/speech_recognizer.py` — the recognition backend dispatch, the
  Whisper confidence computation and the catch-all error handling;
* `src/audio_recorder.py`    — `AudioRecorder.start_recording`;
* `src/clipboard_manager.py` — `ClipboardManager.copy_text` and
  `_add_to_history`;
* `src/gui_main_qt.py`       — the recording loop `record_audio`, the
  delivery path `do_recognition` / `after_recognition`, and the history
  persistence `save_history` / `load_history`;
* `src/cli_demo.py`          — `custom_record_with_silence_detection`;
* `src/config_manager.py`    — `ConfigManager.get` / `ConfigManager.set`.

External effects (PyAudio streams, pyperclip, the recognition engines,
the file system, opencc) are modelled as explicit parameters: a fallible
external call is passed in as an `Except` value describing its outcome,
and text conversion is an abstract `String → String` function.
Python machine integers are modelled as `Int` with explicit wrapping
where the source can overflow (NumPy `int16` arithmetic).
-/

namespace Speech2Clip

/-! ## Speech recognizer (`src/speech_recognizer.py`)

`RecognitionEngine` mirrors the `Enum` of the same name; only the two
engines the rest of the program uses (`GOOGLE`, `WHISPER`) are dispatched
by `_recognize_audio`, every other member falls into the default branch. -/

inductive RecognitionEngine where
  | google
  | google_cloud
  | whisper
  | bing
  | houndify
  | ibm
deriving DecidableEq

/-- Exceptions that the external libraries can raise into the recognizer:
`sr.UnknownValueError`, `sr.RequestError`, and anything else
(`ImportError`, engine failures, bad audio data, ...). -/
inductive PyExn where
  | unknownValue
  | requestError (msg : String)
  | otherError (msg : String)
deriving DecidableEq

/-- One segment of a Whisper `transcribe` result: `seg.get('confidence', 0.0)`
is consulted only when `'confidence' in seg`, so the field is optional. -/
structure WhisperSegment where
  confidence : Option ℚ
deriving DecidableEq

/-- The dictionary returned by `whisper_model.transcribe`: the
`result.get('text', '')` access tolerates a missing key, hence `Option`. -/
structure WhisperResult where
  text : Option String
  segments : List WhisperSegment
deriving DecidableEq

/-- The comprehension in `_recognize_whisper` (speech_recognizer.py:197-198):
`[seg.get('confidence', 0.0) for seg in segments if 'confidence' in seg]`. -/
def whisperConfidences (segments : List WhisperSegment) : List ℚ :=
  (segments.filter (fun seg => seg.confidence.isSome)).map
    (fun seg => seg.confidence.getD 0)

/-- The confidence computation of `_recognize_whisper`
(speech_recognizer.py:194-201): the average of the collected per-segment
confidences, and `0.8` if there are no segments or no collected scores. -/
def whisperAvgConfidence (segments : List WhisperSegment) : ℚ :=
  if segments = [] then 4/5
  else
    let confidences := whisperConfidences segments
    if confidences = [] then 4/5
    else confidences.sum / confidences.length

/-- `_recognize_whisper` (speech_recognizer.py:169-215), with the external
model load + `transcribe` call abstracted as its `Except` outcome.  On
success the text is `result.get('text','').strip()` together with the
averaged confidence; every exception (including `ImportError`) is caught
inside the function and turned into `(None, 0.0)`. -/
def recognize_whisper (outcome : Except PyExn WhisperResult) :
    Option String × ℚ :=
  match outcome with
  | .ok result => (some (result.text.getD "").trim, whisperAvgConfidence result.segments)
  | .error _ => (none, 0)

/-- `_recognize_google` (speech_recognizer.py:159-167): the engine call is
abstracted as its outcome; on success the text is paired with the fixed
confidence `0.85`, and an engine exception is re-raised to the caller. -/
def recognize_google (outcome : Except PyExn String) :
    Except PyExn (Option String × ℚ) :=
  outcome.map (fun text => (some text, 17/20))

/-- `_recognize_audio` (speech_recognizer.py:135-157): dispatch on the
current engine, with a catch-all that maps any escaping exception
(`UnknownValueError`, `RequestError`, anything else) to `(None, 0.0)`.
Unsupported engines return `(None, 0.0)` directly. -/
def recognize_audio (engine : RecognitionEngine)
    (googleOutcome : Except PyExn String)
    (whisperOutcome : Except PyExn WhisperResult) : Option String × ℚ :=
  let body : Except PyExn (Option String × ℚ) :=
    match engine with
    | .google => recognize_google googleOutcome
    | .whisper => .ok (recognize_whisper whisperOutcome)
    | _ => .ok (none, 0)
  match body with
  | .ok r => r
  | .error _ => (none, 0)

/-- `recognize_from_audio_data` (speech_recognizer.py:91-100): the
`sr.AudioData` construction is abstracted as `audioDataOutcome`; any
exception raised while building the audio object is caught and mapped to
`(None, 0.0)`, otherwise the inner `_recognize_audio` runs. -/
def recognize_from_audio_data (engine : RecognitionEngine)
    (audioDataOutcome : Except PyExn Unit)
    (googleOutcome : Except PyExn String)
    (whisperOutcome : Except PyExn WhisperResult) : Option String × ℚ :=
  match audioDataOutcome with
  | .ok _ => recognize_audio engine googleOutcome whisperOutcome
  | .error _ => (none, 0)

/-! ## Audio recorder (`src/audio_recorder.py`)

Only the fields that `start_recording` touches are modelled; the stream
handle is an abstract number, a recorded frame an abstract byte chunk. -/

structure AudioRecorder where
  stream : Option ℕ
  frames : List (List ℤ)
  is_recording : Bool
deriving DecidableEq

/-- `AudioRecorder.start_recording` (audio_recorder.py:87-116).  If a
recording is already in progress it returns `False` immediately.  Otherwise
`frames` is cleared first, then the PyAudio `open` call — abstracted as
`openOutcome` — either yields a stream handle (recording starts, `True`) or
raises (caught: the error callback fires and `False` is returned, with the
already-cleared frame buffer). -/
def start_recording (r : AudioRecorder) (openOutcome : Except PyExn ℕ) :
    AudioRecorder × Bool :=
  if r.is_recording then (r, false)
  else
    match openOutcome with
    | .ok handle =>
        ({ r with frames := [], stream := some handle, is_recording := true }, true)
    | .error _ => ({ r with frames := [] }, false)

/-! ## Clipboard manager (`src/clipboard_manager.py`) -/

/-- A `ClipboardEntry` (clipboard_manager.py:16-50).  The timestamp and the
derived id are opaque data supplied at construction time. -/
structure ClipEntry where
  content : String
  content_type : String
  timestamp : ℕ
  id : String
deriving DecidableEq

/-- `ClipboardManager._add_to_history` (clipboard_manager.py:176-191):
skip if the newest entry (`history[0]`) already has this content, otherwise
insert at the front and truncate to `max_history` (`history[:max_history]`). -/
def add_to_history (max_history : ℕ) (history : List ClipEntry)
    (entry : ClipEntry) : List ClipEntry :=
  if (match history with
      | [] => false
      | h0 :: _ => h0.content == entry.content) then
    history
  else
    let h2 := entry :: history
    if max_history < h2.length then h2.take max_history else h2

/-- The mutable state of a `ClipboardManager` together with the system
clipboard it writes through `pyperclip`. -/
structure ClipboardState where
  max_history : ℕ
  history : List ClipEntry
  clipboard : Option String
deriving DecidableEq

/-- `ClipboardManager.copy_text` (clipboard_manager.py:76-97).  `copyOk`
is the outcome of the external `pyperclip.copy` call: on success the
clipboard holds the text and the entry built from it (with the
caller-independent timestamp/id data) goes through `_add_to_history`; if
`pyperclip.copy` raises, the handler returns `False` and neither the
clipboard model nor the history changes. -/
def copy_text (cm : ClipboardState) (text : String) (timestamp : ℕ)
    (idv : String) (copyOk : Bool) : ClipboardState × Bool :=
  if copyOk then
    ({ cm with
        clipboard := some text
        history := add_to_history cm.max_history cm.history
          { content := text, content_type := "text",
            timestamp := timestamp, id := idv } }, true)
  else (cm, false)

/-! ## GUI history and delivery (`src/gui_main_qt.py`) -/

/-- Python's `l[-n:]`: the last `n` elements — except that `l[-0:]` is the
whole list, a slip the GUI inherits whenever `max_history` were `0`. -/
def pyTakeLast {α : Type} (n : ℕ) (l : List α) : List α :=
  if n = 0 then l else l.drop (l.length - n)

/-- The history append of `after_recognition` (gui_main_qt.py:953-955):
`history.append(text)` followed by `history = history[-max_history:]`
when the bound is exceeded. -/
def boundedAppend (max_history : ℕ) (history : List String) (text : String) :
    List String :=
  let h2 := history ++ [text]
  if max_history < h2.length then pyTakeLast max_history h2 else h2

/-- The GUI state that the delivery path mutates. -/
structure GuiState where
  clipboard : Option String
  history : List String
  result_text : String
deriving DecidableEq

/-- What `do_recognition` (gui_main_qt.py:865-883) hands to the
`recognitionFinished` signal, i.e. to `after_recognition`:

* recognition returned a string → `to_simplified` of it (`cvt`);
* recognition returned `None` (no text) → `to_simplified(None)` returns
  `None` unchanged (its `cc.convert(None)` raises and is caught), and
  `recognitionFinished.emit(None)` on a `pyqtSignal(str)` raises `TypeError`,
  so the `except` branch emits `'[识别失败] ' + str(e)`;
* any other exception in the body → the `except` branch emits
  `'[识别失败] ' + str(e)`. -/
inductive RecOutcome where
  | result (text : Option String)
  | exn (msg : String)

def do_recognition_emits (cvt : String → String) (tyErrMsg : String) :
    RecOutcome → String
  | .result (some t) => cvt t
  | .result none => "[识别失败] " ++ tyErrMsg
  | .exn m => "[识别失败] " ++ m

/-- `after_recognition` (gui_main_qt.py:942-963): re-applies
`to_simplified`, shows the text, writes it to the clipboard through
`set_clipboard_text` (outcome `clipOk`), appends it to the bounded history
and saves.  The persistent save is modelled separately
(`save_history`). -/
def after_recognition (cvt : String → String) (max_history : ℕ)
    (clipOk : Bool) (st : GuiState) (text : String) : GuiState :=
  let t2 := cvt text
  { result_text := t2
    clipboard := if clipOk then some t2 else st.clipboard
    history := boundedAppend max_history st.history t2 }

/-- One full delivery: `do_recognition` feeds `recognitionFinished`, which
is connected to `after_recognition` (gui_main_qt.py:136). -/
def deliver (cvt : String → String) (max_history : ℕ) (clipOk : Bool)
    (tyErrMsg : String) (st : GuiState) (o : RecOutcome) : GuiState :=
  after_recognition cvt max_history clipOk st (do_recognition_emits cvt tyErrMsg o)

/-- One entry of the history file written by `save_history`
(gui_main_qt.py:1233-1241); `text` is optional because the loader reads it
back with `entry.get('text', '')`. -/
structure HistEntry where
  id : String
  text : Option String
  timestamp : String
  source : String
  confidence : ℚ
deriving DecidableEq

/-- The shapes `load_history` (gui_main_qt.py:1192-1219) distinguishes with
`isinstance`: the legacy flat array of strings, the versioned object with
an `entries` key, and anything else. -/
inductive HistFile where
  | arr (items : List String)
  | obj (version : String) (last_saved : String) (total_entries : ℕ)
      (entries : List HistEntry)
  | other

/-- `load_history` (gui_main_qt.py:1192-1219): `none` models a missing
file.  A legacy list is taken as the texts themselves; the new format takes
the `text` field of the last `max_history` entries; any other shape (or a
parse error) leaves the history empty. -/
def load_history (max_history : ℕ) (file : Option HistFile) : List String :=
  match file with
  | none => []
  | some (.arr items) => pyTakeLast max_history items
  | some (.obj _ _ _ entries) =>
      (pyTakeLast max_history entries).map (fun e => e.text.getD "")
  | some .other => []

/-- `save_history` (gui_main_qt.py:1221-1251): wraps the history texts into
the versioned object format, with per-entry id/timestamp/source/confidence
metadata derived from the save time `now`/`ts`. -/
def save_history (now : String) (ts : ℕ) (history : List String) : HistFile :=
  .obj "1.0" now history.length
    (history.enum.map (fun p =>
      { id := "speech_" ++ toString ts ++ "_" ++ toString p.1
        text := some p.2
        timestamp := now
        source := "speech_recognition"
        confidence := 4/5 }))

/-! ## Recording loops (`src/cli_demo.py`, `src/gui_main_qt.py`)

The loudness metrics.  NumPy keeps `int16` arithmetic in `int16`:
`audio_np ** 2` wraps modulo `2^16`, and `np.abs` fixes `-32768`. -/

/-- `np.abs` on an `int16` sample: `abs(-32768)` wraps back to `-32768`. -/
def absI16 (x : ℤ) : ℤ :=
  if x = -32768 then -32768 else x.natAbs

/-- Wrap an integer into the signed 16-bit range, as NumPy `int16`
arithmetic does. -/
def wrapI16 (x : ℤ) : ℤ :=
  (x + 32768) % 65536 - 32768

/-- Sum of `np.abs(audio_np)` over a chunk. -/
def sumAbsI16 (chunk : List ℤ) : ℤ :=
  (chunk.map absI16).sum

/-- Sum of `audio_np ** 2` over a chunk, with each square wrapped to
`int16` as NumPy computes it. -/
def sumSqI16 (chunk : List ℤ) : ℤ :=
  (chunk.map (fun x => wrapI16 (x * x))).sum

/-- The GUI loudness `level = np.abs(audio_np).mean() / 32768`
(gui_main_qt.py:831): the mean absolute sample value, normalized. -/
def guiLevel (chunk : List ℤ) : ℚ :=
  ((sumAbsI16 chunk : ℚ) / chunk.length) / 32768

/-- The CLI silence test `rms < threshold` (cli_demo.py:55-56) with
`rms = np.sqrt(np.mean(audio_np ** 2))`, expressed without the square
root: for a nonempty chunk whose wrapped-square mean is nonnegative,
`sqrt m < t ↔ 0 < t ∧ m < t²`; an empty mean or a negative mean makes
`rms` NaN, and a NaN comparison is `False`. -/
def cliIsSilent (chunk : List ℤ) (threshold : ℚ) : Bool :=
  decide (chunk ≠ [] ∧ 0 ≤ sumSqI16 chunk ∧ 0 < threshold ∧
    (sumSqI16 chunk : ℚ) / chunk.length < threshold ^ 2)

/-- The GUI silence test `level < 0.01` (gui_main_qt.py:833). -/
def guiIsSilentChunk (chunk : List ℤ) : Bool :=
  decide (guiLevel chunk < 1/100)

/-- The per-chunk body shared by both recording loops (cli_demo.py:52-59,
gui_main_qt.py:828-836): append the chunk to the frame buffer, then step
the consecutive-silence counter — increment on a silent chunk, reset to
zero otherwise. -/
def recordStep (isSilent : List ℤ → Bool) (st : List (List ℤ) × ℕ)
    (chunk : List ℤ) : List (List ℤ) × ℕ :=
  (st.1 ++ [chunk], if isSilent chunk then st.2 + 1 else 0)

/-- Folding the per-chunk body over a sequence of chunks. -/
def recordFold (isSilent : List ℤ → Bool) (st : List (List ℤ) × ℕ)
    (chunks : List (List ℤ)) : List (List ℤ) × ℕ :=
  chunks.foldl (recordStep isSilent) st

/-- The consecutive-silence counter after `k` chunks of a chunk stream
classified by `isSilent`. -/
def silentRun (isSilent : ℕ → Bool) : ℕ → ℕ
  | 0 => 0
  | k + 1 => if isSilent k then silentRun isSilent k + 1 else 0

/-- The CLI recording loop `for i in range(max_chunks)` of
`custom_record_with_silence_detection` (cli_demo.py:51-62), abstracted
over the silence classification of each chunk index.  State: remaining
iterations, chunks read so far, current silence counter; the result is the
number of chunks read when the loop ends.  The loop breaks as soon as
`silent_chunks >= silence_chunk_limit`. -/
def cliLoopAux (isSilent : ℕ → Bool) (limit : ℕ) :
    ℕ → ℕ → ℕ → ℕ
  | 0, i, _ => i
  | fuel + 1, i, silent =>
      let silent2 := if isSilent i then silent + 1 else 0
      if limit ≤ silent2 then i + 1
      else cliLoopAux isSilent limit fuel (i + 1) silent2

/-- Chunks read by the CLI loop with silence limit `limit` and iteration
budget `max_chunks`. -/
def cliChunksRead (isSilent : ℕ → Bool) (limit max_chunks : ℕ) : ℕ :=
  cliLoopAux isSilent limit max_chunks 0 0

/-- The GUI recording loop of `record_audio` (gui_main_qt.py:827-840),
abstracted the same way.  It breaks when the silence counter strictly
exceeds `limit` (`silence_count > max_silence * 16000 // 1024`) or when
the number of chunks read strictly exceeds `max_chunks` (the elapsed-time
check `time.time() - start_time > max_duration`, counted in whole chunks).
The `while self.is_recording` loop has no iteration bound of its own, so
the recursion carries fuel; `none` means the fuel ran out first. -/
def guiLoopAux (isSilent : ℕ → Bool) (limit max_chunks : ℕ) :
    ℕ → ℕ → ℕ → Option ℕ
  | 0, _, _ => none
  | fuel + 1, i, silent =>
      let silent2 := if isSilent i then silent + 1 else 0
      if limit < silent2 then some (i + 1)
      else if max_chunks < i + 1 then some (i + 1)
      else guiLoopAux isSilent limit max_chunks fuel (i + 1) silent2

/-- Chunks read by the GUI loop, given enough fuel. -/
def guiChunksRead (isSilent : ℕ → Bool) (limit max_chunks fuel : ℕ) :
    Option ℕ :=
  guiLoopAux isSilent limit max_chunks fuel 0 0

/-- The loudness sequence of the specification scenario: `0.8` for the
first chunk, `0.02` from then on. -/
def scenLoud (i : ℕ) : ℚ :=
  if i = 0 then 4/5 else 1/50

/-- The scenario's chunks classified against a silence threshold of `0.1`
(a threshold that, as the scenario intends, makes `0.02` silent and `0.8`
loud). -/
def scenSilent (i : ℕ) : Bool :=
  decide (scenLoud i < 1/10)

/-! ## Config manager (`src/config_manager.py`) -/

/-- A Python/JSON value as `ConfigManager` sees it: a `dict` with
insertion-ordered unique string keys, or any non-`dict` value. -/
inductive PyVal where
  | dict (entries : List (String × PyVal))
  | str (s : String)
  | num (q : ℚ)
  | boolean (b : Bool)
  | pynone
  | arr (elems : List PyVal)

/-- Python `d[key]` lookup on an ordered dict. -/
def dlookup : List (String × PyVal) → String → Option PyVal
  | [], _ => none
  | (k, v) :: rest, key => if k = key then some v else dlookup rest key

/-- Python `d[key] = v` on an ordered dict: update in place if present,
append otherwise. -/
def dinsert : List (String × PyVal) → String → PyVal → List (String × PyVal)
  | [], key, v => [(key, v)]
  | (k, w) :: rest, key, v =>
      if k = key then (k, v) :: rest else (k, w) :: dinsert rest key v

/-- `ConfigManager.get` (config_manager.py:205-219): walk the split key
path; whenever the current value is not a dict containing the key, return
the caller-supplied default. -/
def configGet : PyVal → List String → PyVal → PyVal
  | v, [], _ => v
  | .dict es, key :: rest, dflt =>
      match dlookup es key with
      | some v => configGet v rest dflt
      | none => dflt
  | _, _ :: _, dflt => dflt

/-- `ConfigManager.set` (config_manager.py:221-242): navigate `keys[:-1]`,
creating an empty dict for each missing key, then assign the last key.
Hitting a non-dict — either `key not in current` or the indexing itself
raising `TypeError` — is caught by the handler, which returns `False`
(modelled as `none`; on that path no mutation has happened). -/
def configSet : PyVal → List String → PyVal → Option PyVal
  | .dict es, [key], v => some (.dict (dinsert es key v))
  | .dict es, key :: rest :: more, v =>
      let child := (dlookup es key).getD (.dict [])
      match configSet child (rest :: more) v with
      | some child2 => some (.dict (dinsert es key child2))
      | none => none
  | _, _, _ => none

/-- Splitting a key path, Python `key_path.split('.')` (on the paths the
claims quantify over the two agree with `String.splitOn`). -/
def splitKeys (key_path : String) : List String :=
  key_path.splitOn "."

/-- The hypothesis of the round-trip claim, decidably: every intermediate
segment of the key path addresses a dict or is absent. -/
def intermediateSegsOk : PyVal → List String → Bool
  | _, [] => true
  | _, [_] => true
  | .dict es, key :: rest =>
      match dlookup es key with
      | none => true
      | some (.dict es2) => intermediateSegsOk (.dict es2) rest
      | some _ => false
  | _, _ :: _ :: _ => false

/-- Whether `ConfigManager.get`'s walk reaches the end of the key path:
at every step the current value is a dict containing the key. -/
def keyPathPresent : PyVal → List String → Bool
  | _, [] => true
  | .dict es, key :: rest =>
      match dlookup es key with
      | some v => keyPathPresent v rest
      | none => false
  | _, _ :: _ => false

/-! ## Helper lemmas -/

lemma whisperConfidences_eq_filterMap (segments : List WhisperSegment) :
    whisperConfidences segments = segments.filterMap WhisperSegment.confidence := by
  induction segments with
  | nil => rfl
  | cons seg rest ih =>
    cases h : seg.confidence with
    | none =>
      simp only [whisperConfidences, List.filter_cons, List.filterMap_cons, h,
        Option.isSome_none, Bool.false_eq_true, if_false]
      simpa [whisperConfidences] using ih
    | some c =>
      simp only [whisperConfidences, List.filter_cons, List.filterMap_cons, h,
        Option.isSome_some, if_true, List.map_cons, Option.getD_some]
      simpa [whisperConfidences] using ih

/-! ## C7: Whisper confidence -/

/-- C7: a successful Whisper transcription returns, as its confidence, the
arithmetic mean of the per-segment confidence scores the engine reported,
and the fixed default `0.8` when the engine reports no segments or no
segment carries a confidence score. -/
theorem whisper_confidence_is_segment_mean (res : WhisperResult) :
    (res.segments.filterMap WhisperSegment.confidence ≠ [] →
      (recognize_whisper (.ok res)).2 =
        (res.segments.filterMap WhisperSegment.confidence).sum /
          (res.segments.filterMap WhisperSegment.confidence).length)
    ∧ (res.segments.filterMap WhisperSegment.confidence = [] →
      (recognize_whisper (.ok res)).2 = 4/5) := by
  have hsnd : (recognize_whisper (.ok res)).2 = whisperAvgConfidence res.segments := rfl
  rw [hsnd]
  unfold whisperAvgConfidence
  rw [whisperConfidences_eq_filterMap]
  constructor
  · intro hne
    have hsegs : ¬ res.segments = [] := by
      intro h0
      apply hne
      rw [h0]
      rfl
    simp [hsegs, hne]
  · intro heq
    by_cases hsegs : res.segments = []
    · simp [hsegs]
    · simp [hsegs, heq]

/-- C7 witness: a concrete transcription with reported scores `0.9` and
`0.6` (one segment carrying none) yields their mean `0.75`, and one with a
single score-free segment yields the default `0.8`. -/
theorem whisper_confidence_is_segment_mean_witness :
    (recognize_whisper (.ok ⟨some "hello",
      [⟨some (9/10)⟩, ⟨none⟩, ⟨some (6/10)⟩]⟩)).2 = 3/4
    ∧ (recognize_whisper (.ok ⟨some "hi", [⟨none⟩]⟩)).2 = 4/5 := by
  constructor
  · have h := (whisper_confidence_is_segment_mean
      ⟨some "hello", [⟨some (9/10)⟩, ⟨none⟩, ⟨some (6/10)⟩]⟩).1 (by decide)
    rw [h]
    norm_num [List.filterMap]
  · exact (whisper_confidence_is_segment_mean ⟨some "hi", [⟨none⟩]⟩).2 (by decide)

/-! ## C8: the recognizer never raises -/

/-- C8 (amended): `recognize_from_audio_data` maps every failure of an
external call — the `sr.AudioData` construction, the Google engine call,
the Whisper engine call — to the returned pair `(None, 0.0)` instead of
propagating the exception; in particular for empty audio, where the engine
raises, the caller receives no text (`None`, not the empty string) with
confidence `0.0`. -/
theorem recognizer_catches_all_errors (engine : RecognitionEngine)
    (g : Except PyExn String) (w : Except PyExn WhisperResult) (e : PyExn) :
    recognize_from_audio_data engine (.error e) g w = (none, 0)
    ∧ recognize_from_audio_data .google (.ok ()) (.error e) w = (none, 0)
    ∧ recognize_from_audio_data .whisper (.ok ()) g (.error e) = (none, 0)
    ∧ recognize_audio engine (.error e) (.error e) = (none, 0) := by
  refine ⟨rfl, rfl, rfl, ?_⟩
  cases engine <;> rfl

/-- C8 counterexample: at the concrete empty-audio input (the engine raises
`UnknownValueError`), the text returned is Python `None`, which is not the
empty string the claim promises. -/
theorem recognizer_empty_input_returns_none_not_empty :
    (recognize_from_audio_data .google (.ok ()) (.error .unknownValue)
        (.error .unknownValue)) = (none, 0)
    ∧ (none : Option String) ≠ some "" := by
  exact ⟨rfl, by simp⟩

/-! ## C4: start while recording is a no-op -/

/-- C4: when a recording is already in progress, `start_recording` returns
`False` and changes nothing — the frame buffer, the stream handle and the
`is_recording` flag are all as before — and the result does not depend on
the PyAudio `open` outcome because no second stream is ever opened. -/
theorem start_recording_noop_when_recording (r : AudioRecorder)
    (o o' : Except PyExn ℕ) (h : r.is_recording = true) :
    start_recording r o = (r, false)
    ∧ start_recording r o = start_recording r o' := by
  constructor <;> simp [start_recording, h]

/-- C4 witness: a concrete recorder mid-recording rejects a second start
request, and its state survives untouched. -/
theorem start_recording_noop_when_recording_witness :
    start_recording ⟨some 7, [[1, 2]], true⟩ (.ok 8) = (⟨some 7, [[1, 2]], true⟩, false) :=
  (start_recording_noop_when_recording ⟨some 7, [[1, 2]], true⟩ (.ok 8)
    (.error .unknownValue) rfl).1

/-! ## C9: clipboard history deduplication -/

/-- C9: `copy_text` always sets the clipboard to the text; when the most
recent history entry (`history[0]`) already has that content the history is
left entirely unchanged, and otherwise (empty history, or a different most
recent content) the freshly built entry is inserted at the front, the rest
being the old history truncated to the bound. -/
theorem copy_text_dedupes_most_recent (cm : ClipboardState) (text : String)
    (ts : ℕ) (idv : String) :
    (∀ h0 rest, cm.history = h0 :: rest → h0.content = text →
      (copy_text cm text ts idv true).1.history = cm.history
      ∧ (copy_text cm text ts idv true).1.clipboard = some text)
    ∧ (1 ≤ cm.max_history →
      (cm.history = [] ∨ ∀ h0 rest, cm.history = h0 :: rest → h0.content ≠ text) →
      (copy_text cm text ts idv true).1.history =
        ⟨text, "text", ts, idv⟩ :: cm.history.take (cm.max_history - 1)
      ∧ (copy_text cm text ts idv true).1.clipboard = some text) := by
  constructor
  · intro h0 rest hh hc
    constructor
    · simp [copy_text, add_to_history, hh, hc]
    · simp [copy_text]
  · intro hN hdistinct
    constructor
    · have hskip : (match cm.history with
        | [] => false
        | h0 :: _ => h0.content == text) = false := by
        cases hh : cm.history with
        | nil => rfl
        | cons h0 rest =>
          rcases hdistinct with hemp | hne
          · rw [hh] at hemp
            exact absurd hemp (by simp)
          · simpa using hne h0 rest hh
      simp only [copy_text, add_to_history, if_true, hskip, Bool.false_eq_true,
        if_false]
      cases hh : cm.history with
      | nil =>
        simp only [List.length_cons, List.length_nil]
        by_cases hM : cm.max_history < 1
        · omega
        · simp only [hM, if_false, List.take_nil]
      | cons h0 rest =>
        by_cases hM : cm.max_history < (⟨text, "text", ts, idv⟩ :: h0 :: rest).length
        · obtain ⟨M, hMeq⟩ : ∃ M, cm.max_history = M + 1 := ⟨cm.max_history - 1, by omega⟩
          rw [hMeq] at hM ⊢
          simp only [hM, if_true, List.take_succ_cons, Nat.add_sub_cancel]
        · simp only [hM, if_false, List.cons.injEq, true_and]
          rw [List.take_of_length_le]
          simp only [List.length_cons] at hM ⊢
          omega
    · simp [copy_text]

/-- C9 witness: copying the text already at the top of the history leaves
the history alone while still setting the clipboard, and copying a new text
onto that same state pushes it in front. -/
theorem copy_text_dedupes_most_recent_witness :
    (copy_text ⟨10, [⟨"hi", "text", 0, "a"⟩], some "hi"⟩ "hi" 3 "b" true).1.history
      = [⟨"hi", "text", 0, "a"⟩]
    ∧ (copy_text ⟨10, [⟨"hi", "text", 0, "a"⟩], some "hi"⟩ "新文本" 3 "b" true).1.history
      = [⟨"新文本", "text", 3, "b"⟩, ⟨"hi", "text", 0, "a"⟩] := by
  constructor
  · exact ((copy_text_dedupes_most_recent ⟨10, [⟨"hi", "text", 0, "a"⟩], some "hi"⟩
      "hi" 3 "b").1 ⟨"hi", "text", 0, "a"⟩ [] rfl rfl).1
  · have h := ((copy_text_dedupes_most_recent ⟨10, [⟨"hi", "text", 0, "a"⟩], some "hi"⟩
      "新文本" 3 "b").2 (by norm_num)
      (Or.inr (by intro h0 rest hh hc; cases hh; exact absurd hc (by decide)))).1
    simpa using h

/-! ## Bounded-history lemmas -/

lemma drop_sub_eq_reverse_take {α : Type} (l : List α) (n : ℕ) :
    l.drop (l.length - n) = (l.reverse.take n).reverse := by
  have h := @List.reverse_take α l.reverse n
  rw [List.reverse_reverse, List.length_reverse] at h
  rw [h]

lemma take_append_take {α : Type} (a b : List α) (n : ℕ) :
    (b ++ a.take n).take n = (b ++ a).take n := by
  rw [List.take_append_eq_append_take, List.take_append_eq_append_take,
    List.take_take]
  congr 1
  congr 1
  omega

lemma lastN_append_lastN {α : Type} (xs ys : List α) (n : ℕ) :
    ((xs.drop (xs.length - n)) ++ ys).drop
        ((xs.drop (xs.length - n) ++ ys).length - n)
      = (xs ++ ys).drop ((xs ++ ys).length - n) := by
  rw [drop_sub_eq_reverse_take, drop_sub_eq_reverse_take,
    drop_sub_eq_reverse_take]
  rw [List.reverse_append, List.reverse_append, List.reverse_reverse,
    take_append_take]

lemma pyTakeLast_of_length_le {α : Type} (n : ℕ) (l : List α)
    (h : l.length ≤ n) : pyTakeLast n l = l := by
  unfold pyTakeLast
  by_cases hn : n = 0
  · simp [hn]
  · have : l.length - n = 0 := by omega
    simp [hn, this]

lemma boundedAppend_eq_lastN (N : ℕ) (hN : 1 ≤ N) (l : List String)
    (t : String) :
    boundedAppend N l t = (l ++ [t]).drop ((l ++ [t]).length - N) := by
  simp only [boundedAppend, pyTakeLast]
  split
  · split
    · omega
    · rfl
  · next hlen =>
      have h0 : (l ++ [t]).length - N = 0 := by omega
      rw [h0, List.drop_zero]

lemma foldl_boundedAppend (N : ℕ) (hN : 1 ≤ N) (h : List String)
    (ts : List String) (hlen : h.length ≤ N) :
    List.foldl (boundedAppend N) h ts
      = (h ++ ts).drop ((h ++ ts).length - N) := by
  induction ts generalizing h with
  | nil =>
    simp only [List.foldl_nil, List.append_nil]
    have : h.length - N = 0 := by omega
    simp [this]
  | cons t ts ih =>
    rw [List.foldl_cons, boundedAppend_eq_lastN N hN h t]
    have hlen2 : ((h ++ [t]).drop ((h ++ [t]).length - N)).length ≤ N := by
      rw [List.length_drop]
      omega
    rw [ih _ hlen2, lastN_append_lastN]
    simp

lemma boundedAppend_getLast (N : ℕ) (hN : 1 ≤ N) (l : List String)
    (t : String) : (boundedAppend N l t).getLast? = some t := by
  rw [boundedAppend_eq_lastN N hN l t]
  have hle : (l ++ [t]).length - N ≤ l.length := by
    simp only [List.length_append, List.length_cons, List.length_nil]
    omega
  rw [List.drop_append_eq_append_drop]
  have : (l ++ [t]).length - N - l.length = 0 := by omega
  rw [this, List.drop_zero, List.getLast?_append]
  rfl

lemma boundedAppend_length (N : ℕ) (hN : 1 ≤ N) (l : List String)
    (t : String) :
    (boundedAppend N l t).length = min (l.length + 1) N := by
  rw [boundedAppend_eq_lastN N hN l t, List.length_drop]
  simp only [List.length_append, List.length_cons, List.length_nil]
  omega

/-! ## C5: bounded FIFO history -/

/-- C5: both history containers stay within their configured bound and
evict the oldest entries first.  The GUI history (newest-last) after any
sequence of appends is exactly the last `N` texts of the full append
stream, so its length never exceeds `N` and the surviving texts keep their
relative order; the clipboard manager's `_add_to_history` (newest-first)
either leaves the history alone (duplicate) or keeps a prefix of the new
entry consed onto the old history, dropping entries from the old end. -/
theorem history_bounded_fifo :
    (∀ (N : ℕ) (h ts : List String), 1 ≤ N → h.length ≤ N →
      (List.foldl (boundedAppend N) h ts).length ≤ N
      ∧ List.foldl (boundedAppend N) h ts
          = (h ++ ts).drop ((h ++ ts).length - N))
    ∧ (∀ (M : ℕ) (hist : List ClipEntry) (e : ClipEntry), hist.length ≤ M →
      (add_to_history M hist e).length ≤ M
      ∧ (add_to_history M hist e = hist
        ∨ add_to_history M hist e = (e :: hist).take M)) := by
  constructor
  · intro N h ts hN hlen
    have heq := foldl_boundedAppend N hN h ts hlen
    refine ⟨?_, heq⟩
    rw [heq, List.length_drop]
    omega
  · intro M hist e hlen
    simp only [add_to_history]
    split
    · exact ⟨hlen, Or.inl rfl⟩
    · split
      · next hM =>
          refine ⟨?_, Or.inr rfl⟩
          simp only [List.length_take]
          omega
      · next hM =>
          have hle : (e :: hist).length ≤ M := by omega
          refine ⟨hle, Or.inr (List.take_of_length_le hle).symm⟩

/-- C5 witness: appending three texts to a two-element history bounded at
`N = 3` keeps exactly the last three, oldest evicted first; the clipboard
manager at its bound keeps a prefix of the pushed history. -/
theorem history_bounded_fifo_witness :
    (List.foldl (boundedAppend 3) ["a", "b"] ["c", "d", "e"]).length ≤ 3
    ∧ List.foldl (boundedAppend 3) ["a", "b"] ["c", "d", "e"] = ["c", "d", "e"]
    ∧ (add_to_history 1 [⟨"x", "text", 0, "i"⟩] ⟨"y", "text", 1, "j"⟩
        = [⟨"x", "text", 0, "i"⟩]
      ∨ add_to_history 1 [⟨"x", "text", 0, "i"⟩] ⟨"y", "text", 1, "j"⟩
        = [⟨"y", "text", 1, "j"⟩]) := by
  refine ⟨(history_bounded_fifo.1 3 ["a", "b"] ["c", "d", "e"] (by norm_num)
    (by norm_num)).1, ?_, ?_⟩
  · have h := (history_bounded_fifo.1 3 ["a", "b"] ["c", "d", "e"] (by norm_num)
      (by norm_num)).2
    rw [h]
    rfl
  · have h := (history_bounded_fifo.2 1 [⟨"x", "text", 0, "i"⟩]
      ⟨"y", "text", 1, "j"⟩ (by norm_num)).2
    rcases h with h | h
    · exact Or.inl h
    · exact Or.inr (by rw [h]; rfl)

/-! ## C6: history persistence round trip -/

/-- C6: saving a history of at most `N` texts and loading it back yields
the same ordered texts (the id/timestamp/source/confidence metadata is
dropped), and the loader accepts the legacy flat array of strings, taking
each element as an entry's text. -/
theorem history_roundtrip_and_legacy (N : ℕ) (now : String) (ts : ℕ)
    (h items : List String) (hlen : h.length ≤ N)
    (hitems : items.length ≤ N) :
    load_history N (some (save_history now ts h)) = h
    ∧ load_history N (some (.arr items)) = items := by
  constructor
  · simp only [load_history, save_history]
    rw [pyTakeLast_of_length_le _ _
      (by rw [List.length_map, List.enum_length]; exact hlen)]
    rw [List.map_map]
    have hcomp : ((fun e : HistEntry => e.text.getD "") ∘ (fun p : ℕ × String => ({ id := "speech_" ++ toString ts ++ "_" ++ toString p.1, text := some p.2, timestamp := now, source := "speech_recognition", confidence := 4/5 } : HistEntry))) = Prod.snd := by
      funext p
      rfl
    rw [hcomp, List.enum_map_snd]
  · simp only [load_history]
    exact pyTakeLast_of_length_le N items hitems

/-- C6 witness: a concrete two-entry history survives the save/load round
trip, and a legacy flat file loads as its texts. -/
theorem history_roundtrip_and_legacy_witness :
    load_history 10 (some (save_history "2024-01-01" 5 ["你好", "ok"]))
      = ["你好", "ok"]
    ∧ load_history 10 (some (.arr ["legacy one", "legacy two"]))
      = ["legacy one", "legacy two"] :=
  history_roundtrip_and_legacy 10 "2024-01-01" 5 ["你好", "ok"]
    ["legacy one", "legacy two"] (by norm_num) (by norm_num)

/-! ## C1: delivery of a failed session -/

/-- C1 counterexample: a concrete failed session — the backend raises
(e.g. `UnrecognizedSpeech`) inside `do_recognition` — reaches
`after_recognition` with the `'[识别失败] ...'` message, so the clipboard
is overwritten and the history grows by one entry, contradicting the
claim that both stay unchanged.  (`cvt = id` is the concrete
`to_simplified` behaviour with opencc unavailable.) -/
theorem failed_delivery_counterexample :
    (deliver (fun s => s) 10 true "TypeError" ⟨some "old", [], ""⟩
        (.exn "UnrecognizedSpeech")).history.length = 1
    ∧ (⟨some "old", [], ""⟩ : GuiState).history.length = 0
    ∧ (deliver (fun s => s) 10 true "TypeError" ⟨some "old", [], ""⟩
        (.exn "UnrecognizedSpeech")).clipboard = some "[识别失败] UnrecognizedSpeech"
    ∧ some "[识别失败] UnrecognizedSpeech" ≠ (some "old" : Option String) := by
  refine ⟨rfl, rfl, rfl, ?_⟩
  simp

/-- C1 (amended): a failed recognition session — the backend raising, or
recognition returning no text (so that emitting `None` on the `str` signal
raises `TypeError`) — is delivered through the same path as a success: the
`'[识别失败] ...'` message is displayed, written to the clipboard, and
appended to the bounded history, whose length grows by one until the bound
is reached. -/
theorem failed_delivery_mutates_clipboard_and_history
    (cvt : String → String) (N : ℕ) (st : GuiState) (m tyErr : String)
    (hN : 1 ≤ N) :
    ((deliver cvt N true tyErr st (.exn m)).clipboard
        = some (cvt ("[识别失败] " ++ m))
      ∧ (deliver cvt N true tyErr st (.exn m)).history.getLast?
        = some (cvt ("[识别失败] " ++ m))
      ∧ (deliver cvt N true tyErr st (.exn m)).history.length
        = min (st.history.length + 1) N)
    ∧ ((deliver cvt N true tyErr st (.result none)).clipboard
        = some (cvt ("[识别失败] " ++ tyErr))
      ∧ (deliver cvt N true tyErr st (.result none)).history.getLast?
        = some (cvt ("[识别失败] " ++ tyErr))
      ∧ (deliver cvt N true tyErr st (.result none)).history.length
        = min (st.history.length + 1) N) := by
  refine ⟨⟨rfl, ?_, ?_⟩, ⟨rfl, ?_, ?_⟩⟩
  · exact boundedAppend_getLast N hN st.history _
  · exact boundedAppend_length N hN st.history _
  · exact boundedAppend_getLast N hN st.history _
  · exact boundedAppend_length N hN st.history _

/-- C1 witness: the amended behaviour at a concrete failed session — the
error message lands at the end of the history and on the clipboard. -/
theorem failed_delivery_mutates_witness :
    (deliver (fun s => s) 10 true "TypeError" ⟨none, ["早"], ""⟩
        (.exn "network down")).history.getLast? = some "[识别失败] network down"
    ∧ (deliver (fun s => s) 10 true "TypeError" ⟨none, ["早"], ""⟩
        (.exn "network down")).history.length = 2 := by
  have h := failed_delivery_mutates_clipboard_and_history (fun s => s) 10
    ⟨none, ["早"], ""⟩ "network down" "TypeError" (by norm_num)
  exact ⟨h.1.2.1, h.1.2.2⟩

/-! ## C2: per-chunk recording effects -/

lemma recordFold_fst (p : List ℤ → Bool) (f : List (List ℤ)) (s : ℕ)
    (cs : List (List ℤ)) : (recordFold p (f, s) cs).1 = f ++ cs := by
  induction cs generalizing f s with
  | nil => simp [recordFold]
  | cons c cs ih =>
    simp only [recordFold, List.foldl_cons] at ih ⊢
    rw [ih]
    simp [recordStep]

lemma recordFold_snd (p : List ℤ → Bool) (f : List (List ℤ)) (s : ℕ)
    (cs : List (List ℤ)) :
    (recordFold p (f, s) cs).2
      = List.foldl (fun s2 c => if p c then s2 + 1 else 0) s cs := by
  induction cs generalizing f s with
  | nil => rfl
  | cons c cs ih =>
    simp only [recordFold, List.foldl_cons] at ih ⊢
    rw [ih]
    rfl

lemma silence_counter_eq_suffix (p : List ℤ → Bool) (cs : List (List ℤ)) :
    List.foldl (fun s2 c => if p c then s2 + 1 else 0) 0 cs
      = (cs.reverse.takeWhile p).length := by
  induction cs using List.reverseRecOn with
  | nil => rfl
  | append_singleton xs x ih =>
    rw [List.foldl_append, List.reverse_append]
    simp only [List.foldl_cons, List.foldl_nil, List.reverse_cons,
      List.reverse_nil, List.nil_append, List.singleton_append,
      List.takeWhile_cons]
    by_cases hx : p x = true
    · simp only [hx, if_true, List.length_cons, ih]
    · simp only [hx, if_false]
      simp at hx
      simp [hx]

/-- C2 (amended): while recording, each chunk read is appended to the frame
buffer, and the consecutive-silence counter after any chunk sequence is the
length of the maximal silent suffix: it increments exactly when the chunk
is classified silent — GUI: mean absolute amplitude normalized by `32768`
strictly below the fixed `0.01`; CLI: root-mean-square of the (`int16`-
wrapped) squares strictly below the caller's raw threshold — and resets to
zero otherwise, including when the loudness equals the threshold
exactly. -/
theorem record_chunk_effects (frames : List (List ℤ)) (s : ℕ)
    (cs : List (List ℤ)) (th : ℚ) (c : List ℤ) :
    (recordFold guiIsSilentChunk (frames, s) cs).1 = frames ++ cs
    ∧ (recordFold (fun c2 => cliIsSilent c2 th) (frames, s) cs).1 = frames ++ cs
    ∧ (recordFold guiIsSilentChunk (frames, 0) cs).2
        = (cs.reverse.takeWhile guiIsSilentChunk).length
    ∧ (recordFold (fun c2 => cliIsSilent c2 th) (frames, 0) cs).2
        = (cs.reverse.takeWhile (fun c2 => cliIsSilent c2 th)).length
    ∧ ((recordStep guiIsSilentChunk (frames, s) c).2 = s + 1
        ↔ guiLevel c < 1/100)
    ∧ ((recordStep guiIsSilentChunk (frames, s) c).2 = 0
        ↔ ¬ guiLevel c < 1/100)
    ∧ ((recordStep (fun c2 => cliIsSilent c2 th) (frames, s) c).2 = s + 1
        ↔ cliIsSilent c th = true) := by
  refine ⟨recordFold_fst _ _ _ _, recordFold_fst _ _ _ _, ?_, ?_, ?_, ?_, ?_⟩
  · rw [recordFold_snd, silence_counter_eq_suffix]
  · rw [recordFold_snd, silence_counter_eq_suffix]
  · simp only [recordStep, guiIsSilentChunk]
    by_cases hc : guiLevel c < 1/100
    · simp [hc]
    · simp [hc]
  · simp only [recordStep, guiIsSilentChunk]
    by_cases hc : guiLevel c < 1/100
    · simp [hc]
    · simp [hc]
  · by_cases hc : cliIsSilent c th = true
    · simp [recordStep, hc]
    · simp only [Bool.not_eq_true] at hc
      simp [recordStep, hc]

/-- C2 counterexample: the loudness the GUI computes is not the
root-mean-square of the claim — on the 1024-sample chunk
`[100, 0, 0, ...]` the squared computed level times `n · 32768²` misses the
sum of squares by a factor of 1024 — and at a loudness exactly equal to the
threshold the counter resets instead of incrementing: the all-`100` chunk
has RMS exactly `100`, yet with threshold `100` the CLI step yields `0`,
not `s + 1`. -/
theorem loudness_not_rms_counterexample :
    guiLevel (100 :: List.replicate 1023 (0:ℤ)) ^ 2 * (1024 * 32768 ^ 2)
      ≠ ((sumSqI16 (100 :: List.replicate 1023 (0:ℤ)) : ℚ))
    ∧ (sumSqI16 (List.replicate 1024 (100:ℤ)) : ℚ)
        / (List.replicate 1024 (100:ℤ)).length = (100 : ℚ) ^ 2
    ∧ (recordStep (fun c2 => cliIsSilent c2 100) ([], 3)
        (List.replicate 1024 (100:ℤ))).2 = 0 := by
  have habs0 : absI16 0 = 0 := by decide
  have habs100 : absI16 100 = 100 := by decide
  have hwrap0 : wrapI16 (0 * 0) = 0 := by decide
  have hwrap100 : wrapI16 (100 * 100) = 10000 := by decide
  have hsumA : sumSqI16 (100 :: List.replicate 1023 (0:ℤ)) = 10000 := by
    simp only [sumSqI16, List.map_cons, List.map_replicate, List.sum_cons,
      List.sum_replicate, smul_eq_mul, hwrap0, hwrap100]
    norm_num
  have hsumB : sumSqI16 (List.replicate 1024 (100:ℤ)) = 10240000 := by
    simp only [sumSqI16, List.map_replicate, List.sum_replicate, smul_eq_mul,
      hwrap100]
    norm_num
  have hlevA : guiLevel (100 :: List.replicate 1023 (0:ℤ))
      = (100 : ℚ) / (1024 * 32768) := by
    simp only [guiLevel, sumAbsI16, List.map_cons, List.map_replicate,
      List.sum_cons, List.sum_replicate, smul_eq_mul, habs0, habs100,
      List.length_cons, List.length_replicate]
    push_cast
    norm_num
  refine ⟨?_, ?_, ?_⟩
  · rw [hlevA, hsumA]
    norm_num
  · rw [hsumB]
    simp only [List.length_replicate]
    norm_num
  · have hsilent : cliIsSilent (List.replicate 1024 (100:ℤ)) 100 = false := by
      simp only [cliIsSilent]
      rw [decide_eq_false_iff_not]
      intro hcontra
      have h4 := hcontra.2.2.2
      rw [hsumB] at h4
      simp only [List.length_replicate] at h4
      norm_num at h4
    simp only [recordStep, hsilent, Bool.false_eq_true, if_false]

/-! ## C3: transition to Finalizing -/

lemma scenSilent_eval : scenSilent = fun i => decide (0 < i) := by
  funext i
  cases i with
  | zero =>
    have h1 : scenSilent 0 = false := by
      simp only [scenSilent, scenLoud, if_pos rfl]
      rw [decide_eq_false_iff_not]
      norm_num
    rw [h1]
    rfl
  | succ k =>
    have h1 : scenSilent (k + 1) = true := by
      simp only [scenSilent, scenLoud]
      rw [decide_eq_true_eq, if_neg (Nat.succ_ne_zero k)]
      norm_num
    rw [h1]
    simp

lemma silentRun_succ (isSilent : ℕ → Bool) (k : ℕ) :
    silentRun isSilent (k + 1)
      = if isSilent k then silentRun isSilent k + 1 else 0 := rfl

lemma cliLoopAux_reaches (isSilent : ℕ → Bool) (limit : ℕ) :
    ∀ (fuel i k : ℕ), i < k → k ≤ i + fuel →
      limit ≤ silentRun isSilent k →
      (∀ j, i < j → j < k → silentRun isSilent j < limit) →
      cliLoopAux isSilent limit fuel i (silentRun isSilent i) = k := by
  intro fuel
  induction fuel with
  | zero =>
    intro i k hik hk _ _
    omega
  | succ fuel ih =>
    intro i k hik hk hreach hbefore
    rw [cliLoopAux]
    simp only [← silentRun_succ isSilent i]
    by_cases hbrk : limit ≤ silentRun isSilent (i + 1)
    · rw [if_pos hbrk]
      by_cases heq : k = i + 1
      · omega
      · exfalso
        have hlt : i + 1 < k := by omega
        exact absurd hbrk (by have := hbefore (i + 1) (by omega) hlt; omega)
    · rw [if_neg hbrk]
      have hne : k ≠ i + 1 := by
        intro h0
        rw [h0] at hreach
        omega
      exact ih (i + 1) k (by omega) (by omega) hreach
        (fun j hj1 hj2 => hbefore j (by omega) hj2)

lemma cliLoopAux_exhausts (isSilent : ℕ → Bool) (limit : ℕ) :
    ∀ (fuel i : ℕ), (∀ j, j ≤ i + fuel → silentRun isSilent j < limit) →
      cliLoopAux isSilent limit fuel i (silentRun isSilent i) = i + fuel := by
  intro fuel
  induction fuel with
  | zero => intro i _; rfl
  | succ fuel ih =>
    intro i hall
    rw [cliLoopAux]
    simp only [← silentRun_succ isSilent i]
    rw [if_neg (by have := hall (i + 1) (by omega); omega)]
    have h2 := ih (i + 1) (fun j hj => hall j (by omega))
    omega

/-- C3 (amended): the CLI recorder (`custom_record_with_silence_detection`)
leaves the loop exactly when the consecutive-silence count first reaches
(`≥`) the configured limit, or when the `max_chunks` budget is exhausted,
whichever comes first — in particular the scenario (loudness
`[0.8, 0.02, 0.02, ...]` against threshold `0.1`, silence limit 2 chunks,
budget 100) finalizes right after the 3rd chunk.  The GUI recorder
(`record_audio`) instead exits only when the counter *strictly* exceeds
its limit, so the same scenario keeps it recording past the 3rd chunk: it
reads a 4th chunk before stopping. -/
theorem session_finalizing_transition :
    (∀ (isSilent : ℕ → Bool) (limit max_chunks k : ℕ), 1 ≤ limit →
      k ≤ max_chunks → limit ≤ silentRun isSilent k →
      (∀ j, j < k → silentRun isSilent j < limit) →
      cliChunksRead isSilent limit max_chunks = k)
    ∧ (∀ (isSilent : ℕ → Bool) (limit max_chunks : ℕ),
      (∀ j, j ≤ max_chunks → silentRun isSilent j < limit) →
      cliChunksRead isSilent limit max_chunks = max_chunks)
    ∧ cliChunksRead scenSilent 2 100 = 3
    ∧ guiChunksRead scenSilent 2 100 200 = some 4 := by
  refine ⟨?_, ?_, ?_, ?_⟩
  · intro isSilent limit max_chunks k h1 hk hreach hbefore
    have hk0 : 0 < k := by
      rcases Nat.eq_zero_or_pos k with h0 | h0
      · rw [h0] at hreach
        simp [silentRun] at hreach
        omega
      · exact h0
    have := cliLoopAux_reaches isSilent limit max_chunks 0 k hk0 (by omega)
      hreach (fun j hj1 hj2 => hbefore j hj2)
    simpa [cliChunksRead, silentRun] using this
  · intro isSilent limit max_chunks hall
    have := cliLoopAux_exhausts isSilent limit max_chunks 0
      (fun j hj => hall j (by omega))
    simpa [cliChunksRead, silentRun] using this
  · rw [scenSilent_eval]
    decide
  · rw [scenSilent_eval]
    decide

/-- C3 witness: the general CLI characterization applied to the concrete
scenario run — the first chunk is loud, the next two silent, so the first
index with two consecutive silent chunks is 3 and the loop reads exactly
3 chunks. -/
theorem session_finalizing_transition_witness :
    cliChunksRead scenSilent 2 100 = 3 :=
  session_finalizing_transition.1 scenSilent 2 100 3 (by norm_num)
    (by norm_num) (by rw [scenSilent_eval]; decide)
    (by rw [scenSilent_eval]; decide)

/-- C3 counterexample: on the GUI loop the scenario does not finalize after
the 3rd chunk — its strict `silence_count > limit` test needs one more
silent chunk, so it reads 4 chunks. -/
theorem gui_scenario_not_three_chunks :
    guiChunksRead scenSilent 2 100 200 = some 4
    ∧ guiChunksRead scenSilent 2 100 200 ≠ some 3 := by
  have h4 : guiChunksRead scenSilent 2 100 200 = some 4 := by
    rw [scenSilent_eval]
    decide
  refine ⟨h4, ?_⟩
  intro h
  rw [h4] at h
  simp at h

/-! ## C10: config get/set round trip -/

lemma dlookup_dinsert_self (es : List (String × PyVal)) (key : String)
    (v : PyVal) : dlookup (dinsert es key v) key = some v := by
  induction es with
  | nil => simp [dinsert, dlookup]
  | cons p rest ih =>
    by_cases hk : p.1 = key
    · simp [dinsert, dlookup, hk]
    · simp only [dinsert, dlookup, if_neg hk]
      exact ih

lemma intermediateSegsOk_emptyDict (keys : List String) :
    intermediateSegsOk (.dict []) keys = true := by
  cases keys with
  | nil => rfl
  | cons k rest =>
    cases rest with
    | nil => rfl
    | cons r more => simp [intermediateSegsOk, dlookup]

lemma configSet_then_get (keys : List String) :
    ∀ (es : List (String × PyVal)) (v dflt : PyVal), keys ≠ [] →
      intermediateSegsOk (.dict es) keys = true →
      ∃ es2, configSet (.dict es) keys v = some (.dict es2)
        ∧ configGet (.dict es2) keys dflt = v := by
  induction keys with
  | nil => intro es v dflt hne _; exact absurd rfl hne
  | cons key rest ih =>
    intro es v dflt _ hok
    cases rest with
    | nil =>
      refine ⟨dinsert es key v, rfl, ?_⟩
      simp [configGet, dlookup_dinsert_self]
    | cons r more =>
      have hchild : ∃ child : List (String × PyVal),
          (dlookup es key).getD (.dict []) = .dict child
          ∧ intermediateSegsOk (.dict child) (r :: more) = true := by
        cases hlk : dlookup es key with
        | none =>
          exact ⟨[], rfl, intermediateSegsOk_emptyDict _⟩
        | some w =>
          cases w with
          | dict es2 =>
            refine ⟨es2, rfl, ?_⟩
            simpa [intermediateSegsOk, hlk] using hok
          | str s => simp [intermediateSegsOk, hlk] at hok
          | num q => simp [intermediateSegsOk, hlk] at hok
          | boolean b => simp [intermediateSegsOk, hlk] at hok
          | pynone => simp [intermediateSegsOk, hlk] at hok
          | arr elems => simp [intermediateSegsOk, hlk] at hok
      obtain ⟨child, hc, hcok⟩ := hchild
      obtain ⟨child2, hset, hget⟩ := ih child v dflt (by simp) hcok
      refine ⟨dinsert es key (.dict child2), ?_, ?_⟩
      · simp only [configSet, hc, hset]
      · simp only [configGet, dlookup_dinsert_self]
        exact hget

lemma keyPathPresent_false_get (keys : List String) :
    ∀ (cfg dflt : PyVal), keyPathPresent cfg keys = false →
      configGet cfg keys dflt = dflt := by
  induction keys with
  | nil => intro cfg dflt h; simp [keyPathPresent] at h
  | cons key rest ih =>
    intro cfg dflt h
    cases cfg with
    | dict es =>
      cases hlk : dlookup es key with
      | none => simp [configGet, hlk]
      | some w =>
        simp only [configGet, hlk]
        apply ih
        simpa [keyPathPresent, hlk] using h
    | str s => rfl
    | num q => rfl
    | boolean b => rfl
    | pynone => rfl
    | arr elems => rfl

/-- C10: for every non-empty key path whose intermediate segments address
dicts or are absent, `set` succeeds and a subsequent `get` on the same path
returns exactly the stored value; and whenever the walk of `get` does not
reach the end of the path (the path is not present), `get` returns the
caller-supplied default. -/
theorem config_set_get_roundtrip :
    (∀ (es : List (String × PyVal)) (keys : List String) (v dflt : PyVal),
      keys ≠ [] → intermediateSegsOk (.dict es) keys = true →
      ∃ es2, configSet (.dict es) keys v = some (.dict es2)
        ∧ configGet (.dict es2) keys dflt = v)
    ∧ (∀ (cfg : PyVal) (keys : List String) (dflt : PyVal),
      keyPathPresent cfg keys = false → configGet cfg keys dflt = dflt) :=
  ⟨fun es keys v dflt hne hok => configSet_then_get keys es v dflt hne hok,
   fun cfg keys dflt h => keyPathPresent_false_get keys cfg dflt h⟩

/-- C10 witness: on a concrete config, setting `speech.language` (fresh
leaf under an existing dict) makes `get` return it, and `get` on an absent
path returns the default. -/
theorem config_set_get_roundtrip_witness :
    (∃ es2, configSet (.dict [("speech", .dict [("engine", .str "google")])])
        ["speech", "language"] (.str "en-US") = some (.dict es2)
      ∧ configGet (.dict es2) ["speech", "language"] (.str "dflt")
        = .str "en-US")
    ∧ configGet (.dict [("speech", .dict [("engine", .str "google")])])
        ["audio", "rate"] (.num 16000) = .num 16000 := by
  constructor
  · exact config_set_get_roundtrip.1 [("speech", .dict [("engine", .str "google")])]
      ["speech", "language"] (.str "en-US") (.str "dflt") (by simp) rfl
  · exact config_set_get_roundtrip.2 _ ["audio", "rate"] (.num 16000) rfl

end Speech2Clip
